import Mathlib

/-!
Verification of the Fact-Online-eXamination-AI persistence, summarization
and graph components against their specification.

The Python sources are shallowly embedded:
  * `Database/data_entities.py` (titled `Claim` variant and `Answer`) in
    namespace `DbEntities`;
  * `data_entities.py` (the repository-root variant with `Source` objects)
    in namespace `RootEntities`;
  * `Preprocessor/summarizer.py` in namespace `Summarizer`;
  * `GraphRAG/graph_manager.py` (`load_data` and `avoid_overlap`) in
    namespace `GraphManager`.

The generic SQL driver (`Database/sqldb.py`) is not part of the sources;
its operations are modelled from the specification's description of the
relational schema and of the driver ("table creation, parameterized
execute/fetch", SQLite-style errors on missing tables and duplicate
primary keys).  Remote model calls and the graph engine are modelled as
oracles supplying the outcome of each external call.
-/

/-- Python runtime values as far as the embedded code needs them: the
`entities` field of a source dict is either a string or a list of strings,
and `Database/data_entities.py` applies `str(...)` to it before storing. -/
inductive PyVal where
  | str : String → PyVal
  | list : List String → PyVal
deriving DecidableEq

/-- Python `repr` of a string (as used by `str` on a list of strings): the
string wrapped in single quotes, or in double quotes when it contains a
single quote but no double quote.  Escape sequences for strings containing
both kinds of quote or control characters are not modelled; the embedded
theorems only evaluate it on plain text. -/
def pyReprStr (s : String) : String :=
  if s.toList.contains '\'' ∧ ¬ s.toList.contains '"' then
    "\"" ++ s ++ "\""
  else
    "'" ++ s ++ "'"

/-- Python `str(v)`: the identity on strings; on a list of strings, the
bracketed comma-separated list of the `repr`s of the elements. -/
def pyStr : PyVal → String
  | .str s => s
  | .list xs => "[" ++ String.intercalate ", " (xs.map pyReprStr) ++ "]"

/-- Python `str.strip()` with no argument: remove leading and trailing
whitespace (modelled with Lean's whitespace class, which covers the
ASCII whitespace the embedded texts use). -/
def pyStrip (s : String) : String :=
  ⟨((s.data.dropWhile Char.isWhitespace).reverse.dropWhile Char.isWhitespace).reverse⟩

/-- Row of the `claims` table: `claims(id PK, text, title, summary)`.
The root variant only populates `id` and `text`. -/
structure ClaimRow where
  id : String
  text : String
  title : String
  summary : String
deriving DecidableEq

/-- Row of the `sources` table:
`sources(id PK, claim_id FK, title, url, site, body, topic, entities)`. -/
structure SourceRow where
  id : String
  claim_id : String
  title : String
  url : String
  site : String
  body : String
  topic : String
  entities : String
deriving DecidableEq

/-- Row of the `answers` table:
`answers(id PK, claim_id FK, answer, graphs_folder)`. -/
structure AnswerRow where
  id : String
  claim_id : String
  answer : String
  graphs_folder : String
deriving DecidableEq

/-- Errors surfaced by the modelled SQL driver: SQLite raises
`OperationalError: no such table` when a statement targets an absent
table, and `IntegrityError: UNIQUE constraint failed` on a duplicate
primary key. -/
inductive DBErr where
  | noSuchTable : String → DBErr
  | uniqueViolation : String → DBErr
deriving DecidableEq

/-- Modelled from the spec: state of the relational store.  Each of the
three tables of the schema is either absent (`none`, before its lazy
`CREATE TABLE IF NOT EXISTS`) or a list of rows in insertion order. -/
structure DBState where
  claims : Option (List ClaimRow)
  sources : Option (List SourceRow)
  answers : Option (List AnswerRow)
deriving DecidableEq

/-- The store before any table has been created. -/
def DBState.empty : DBState := ⟨none, none, none⟩

/-- Modelled from the spec: `CREATE TABLE IF NOT EXISTS claims (...)`.
Creates the table empty when absent and leaves it untouched otherwise. -/
def createClaimsTable (db : DBState) : DBState :=
  { db with claims := some (db.claims.getD []) }

/-- Modelled from the spec: `CREATE TABLE IF NOT EXISTS sources (...)`. -/
def createSourcesTable (db : DBState) : DBState :=
  { db with sources := some (db.sources.getD []) }

/-- Modelled from the spec: `CREATE TABLE IF NOT EXISTS answers (...)`. -/
def createAnswersTable (db : DBState) : DBState :=
  { db with answers := some (db.answers.getD []) }

/-- Modelled from the spec: `INSERT INTO claims (id, text, title, summary)
VALUES (?, ?, ?, ?)`.  Fails on an absent table or a duplicate primary
key, appends the row otherwise. -/
def insertClaimRow (r : ClaimRow) (db : DBState) : Except DBErr DBState :=
  match db.claims with
  | none => .error (.noSuchTable "claims")
  | some rows =>
      if rows.any (fun q => q.id == r.id) then
        .error (.uniqueViolation "claims.id")
      else
        .ok { db with claims := some (rows ++ [r]) }

/-- Modelled from the spec: `INSERT INTO sources (...) VALUES (...)`. -/
def insertSourceRow (r : SourceRow) (db : DBState) : Except DBErr DBState :=
  match db.sources with
  | none => .error (.noSuchTable "sources")
  | some rows =>
      if rows.any (fun q => q.id == r.id) then
        .error (.uniqueViolation "sources.id")
      else
        .ok { db with sources := some (rows ++ [r]) }

/-- Modelled from the spec: `INSERT INTO answers (...) VALUES (...)`. -/
def insertAnswerRow (r : AnswerRow) (db : DBState) : Except DBErr DBState :=
  match db.answers with
  | none => .error (.noSuchTable "answers")
  | some rows =>
      if rows.any (fun q => q.id == r.id) then
        .error (.uniqueViolation "answers.id")
      else
        .ok { db with answers := some (rows ++ [r]) }

/-- Modelled from the spec: `SELECT * FROM claims WHERE id = ?` fetching
the first matching row. -/
def fetchClaimById (cid : String) (db : DBState) : Except DBErr (Option ClaimRow) :=
  match db.claims with
  | none => .error (.noSuchTable "claims")
  | some rows => .ok ((rows.filter (fun r => r.id == cid)).head?)

/-- Modelled from the spec: `SELECT * FROM sources WHERE claim_id = ?`
(`fetch_all`), returning matching rows in table order. -/
def fetchSourcesByClaim (cid : String) (db : DBState) : Except DBErr (List SourceRow) :=
  match db.sources with
  | none => .error (.noSuchTable "sources")
  | some rows => .ok (rows.filter (fun r => r.claim_id == cid))

/-- Modelled from the spec: `SELECT * FROM answers WHERE claim_id = ?`
(`fetch_one`), returning the first matching row when any. -/
def fetchAnswerByClaim (cid : String) (db : DBState) : Except DBErr (Option AnswerRow) :=
  match db.answers with
  | none => .error (.noSuchTable "answers")
  | some rows => .ok ((rows.filter (fun r => r.claim_id == cid)).head?)

/-- Modelled from the spec: `DELETE FROM claims WHERE id = ?`.  SQLite
still requires the table to exist; deleting zero rows is not an error. -/
def deleteClaimById (cid : String) (db : DBState) : Except DBErr DBState :=
  match db.claims with
  | none => .error (.noSuchTable "claims")
  | some rows => .ok { db with claims := some (rows.filter (fun r => !(r.id == cid))) }

/-- Modelled from the spec: `DELETE FROM sources WHERE claim_id = ?`. -/
def deleteSourcesByClaim (cid : String) (db : DBState) : Except DBErr DBState :=
  match db.sources with
  | none => .error (.noSuchTable "sources")
  | some rows => .ok { db with sources := some (rows.filter (fun r => !(r.claim_id == cid))) }

/-- Modelled from the spec: `DELETE FROM answers WHERE claim_id = ?`. -/
def deleteAnswersByClaim (cid : String) (db : DBState) : Except DBErr DBState :=
  match db.answers with
  | none => .error (.noSuchTable "answers")
  | some rows => .ok { db with answers := some (rows.filter (fun r => !(r.claim_id == cid))) }

namespace DbEntities

/-- In-memory fields of a `Database/data_entities.py` `Claim` object. -/
structure ClaimRec where
  id : String
  text : String
  title : String
  summary : String
deriving DecidableEq

/-- Identifier resolution `claim_id if claim_id else str(uuid.uuid4())`:
Python truthiness makes both `None` and the empty string fall back to a
fresh UUID (supplied here as `fresh`). -/
def resolveId (claim_id : Option String) (fresh : String) : String :=
  match claim_id with
  | some s => if s = "" then fresh else s
  | none => fresh

/-- Claim.save_to_db: `CREATE TABLE IF NOT EXISTS claims` followed by the
parameterized `INSERT` of `(self.id, self.text, self.title, self.summary)`. -/
def Claim.save_to_db (r : ClaimRec) (db : DBState) : Except DBErr DBState :=
  insertClaimRow ⟨r.id, r.text, r.title, r.summary⟩ (createClaimsTable db)

/-- Claim.__init__: resolves the identifier, stores `title[2:]` as the
title, and immediately persists via `save_to_db`.  A database failure
propagates out of the constructor, in which case no object is produced. -/
def Claim.create (text title summary : String) (claim_id : Option String)
    (fresh : String) (db : DBState) : Except DBErr (ClaimRec × DBState) :=
  let r : ClaimRec := ⟨resolveId claim_id fresh, text, title.drop 2, summary⟩
  (Claim.save_to_db r db).map (fun db' => (r, db'))

/-- Dictionary shape returned by `Claim.get_dict_sources` for one source
row. -/
structure SourceDict where
  source_id : String
  claim_id : String
  title : String
  url : String
  site : String
  body : String
  topic : String
  entities : String
deriving DecidableEq

/-- Claim.get_dict_sources: fetch all `sources` rows with this claim's id
and map each row to a dictionary. -/
def Claim.get_dict_sources (cid : String) (db : DBState) : Except DBErr (List SourceDict) :=
  (fetchSourcesByClaim cid db).map
    (List.map (fun r => SourceDict.mk r.id r.claim_id r.title r.url r.site r.body r.topic r.entities))

/-- Input dictionary consumed by `Claim.add_sources`: the stored fields
are strings except `entities`, which the code renders with `str(...)`. -/
structure SourceData where
  title : String
  url : String
  site : String
  body : String
  topic : String
  entities : PyVal
deriving DecidableEq

/-- Claim.add_sources: `CREATE TABLE IF NOT EXISTS sources` and then one
`INSERT` per input dict, each with a freshly generated UUID (supplied here
as the list `uuids`, one per record) and with `str(data['entities'])` in
the `entities` column. -/
def Claim.add_sources (cid : String) (sources_data : List SourceData)
    (uuids : List String) (db : DBState) : Except DBErr DBState :=
  (sources_data.zip uuids).foldlM
    (fun acc du =>
      insertSourceRow
        ⟨du.2, cid, du.1.title, du.1.url, du.1.site, du.1.body, du.1.topic, pyStr du.1.entities⟩
        acc)
    (createSourcesTable db)

/-- Claim.clear_database: three `DELETE` statements for the claim row and
its dependent source and answer rows, with no table creation beforehand. -/
def Claim.clear_database (cid : String) (db : DBState) : Except DBErr DBState := do
  let db1 ← deleteClaimById cid db
  let db2 ← deleteSourcesByClaim cid db1
  deleteAnswersByClaim cid db2

/-- Claim.has_answer: `fetch_one` on the `answers` table, true when a row
with this claim's id exists. -/
def Claim.has_answer (cid : String) (db : DBState) : Except DBErr Bool :=
  (fetchAnswerByClaim cid db).map Option.isSome

/-- Answer.save_to_db: `CREATE TABLE IF NOT EXISTS answers` followed by
the `INSERT` of `(self.id, self.claim_id, self.answer, self.graphs_folder)`. -/
def Answer.save_to_db (aid cid answer graphs_folder : String)
    (db : DBState) : Except DBErr DBState :=
  insertAnswerRow ⟨aid, cid, answer, graphs_folder⟩ (createAnswersTable db)

end DbEntities

namespace RootEntities

/-- In-memory fields of a `data_entities.py` `Source` object (database
handle omitted). -/
structure Source where
  id : String
  claim_id : String
  title : String
  url : String
  site : String
  body : String
  entities : String
  topic : String
deriving DecidableEq

/-- Input dictionary consumed by the root variant's `Claim.add_sources`;
all stored fields, `entities` included, are taken as given (strings, per
the `Source` docstring — SQLite accepts no other value here). -/
structure SourceData where
  title : String
  url : String
  site : String
  body : String
  entities : String
  topic : String
deriving DecidableEq

/-- Claim.save_to_db of the root variant: `CREATE TABLE IF NOT EXISTS
claims (id TEXT PRIMARY KEY, text TEXT)` and the `INSERT` of
`(self.id, self.text)`; the CSV export afterwards does not touch the
store.  The shared `claims` row type's unused columns stay empty. -/
def Claim.save_to_db (cid text : String) (db : DBState) : Except DBErr DBState :=
  insertClaimRow ⟨cid, text, "", ""⟩ (createClaimsTable db)

/-- Claim.get_sources: fetch all `sources` rows with this claim's id and
wrap each row in a `Source` object. -/
def Claim.get_sources (cid : String) (db : DBState) : Except DBErr (List Source) :=
  (fetchSourcesByClaim cid db).map
    (List.map (fun r => Source.mk r.id r.claim_id r.title r.url r.site r.body r.entities r.topic))

/-- Claim.add_sources of the root variant: `CREATE TABLE IF NOT EXISTS
sources` and one `INSERT` per input dict with a fresh UUID each (supplied
as `uuids`); the `entities` value is stored as given, without `str(...)`. -/
def Claim.add_sources (cid : String) (sources_data : List SourceData)
    (uuids : List String) (db : DBState) : Except DBErr DBState :=
  (sources_data.zip uuids).foldlM
    (fun acc du =>
      insertSourceRow
        ⟨du.2, cid, du.1.title, du.1.url, du.1.site, du.1.body, du.1.topic, du.1.entities⟩
        acc)
    (createSourcesTable db)

end RootEntities

namespace Summarizer

/-- Successful chat completion as far as the code reads it:
`response.choices[0].message.content`, which may be a string or `None`
(`content = none` also stands for a response whose choice extraction
fails — both raise inside the caller when `.strip()` is applied). -/
structure ChatResponse where
  content : Option String
deriving DecidableEq

/-- Outcome of one remote `chat.completions.create` call: either the
response object or a raised client error (network, auth, HTTP failure). -/
abbrev CallOutcome := Except String ChatResponse

/-- Summarizer.claim_title_summarize: the whole call and extraction sit in
a `try` block; any failure — client error or `None` content making
`.strip()` raise — is logged and turned into `None`, while success
returns the stripped completion. -/
def claim_title_summarize (outcome : CallOutcome) : Option String :=
  match outcome with
  | .error _ => none
  | .ok r =>
      match r.content with
      | none => none
      | some s => some (pyStrip s)

/-- Summarizer.generate_summary: no `try` block; a client error or a
`None` content (whose `.strip()` raises `AttributeError`) propagates to
the caller, and success returns the stripped completion. -/
def generate_summary (outcome : CallOutcome) : Except String String :=
  match outcome with
  | .error e => .error e
  | .ok r =>
      match r.content with
      | none => .error "AttributeError"
      | some s => .ok (pyStrip s)

/-- Summarizer.summarize_texts, inner loop from call index `idx`: each
text is truncated to `token_cut` characters and passed to
`generate_summary` (the oracle maps call index and sent text to the remote
outcome); a truthy summary is appended, a falsy one only logs a warning
and appends nothing, and an exception appends `None`.  The
length-proportional `time.sleep` changes no data and is not modelled. -/
def summarize_go (oracle : ℕ → String → CallOutcome) (token_cut : ℕ) :
    ℕ → List String → List (Option String)
  | _, [] => []
  | idx, t :: rest =>
      let cutted := t.take token_cut
      match generate_summary (oracle idx cutted) with
      | .error _ => none :: summarize_go oracle token_cut (idx + 1) rest
      | .ok s =>
          if s = "" then summarize_go oracle token_cut (idx + 1) rest
          else some s :: summarize_go oracle token_cut (idx + 1) rest

/-- Summarizer.summarize_texts: sequential batch summarization starting at
the first call. -/
def summarize_texts (texts : List String) (token_cut : ℕ)
    (oracle : ℕ → String → CallOutcome) : List (Option String) :=
  summarize_go oracle token_cut 0 texts

/-- Contribution of one batch item to the result list of
`summarize_texts`, as a function of its remote-call outcome: a failed
call contributes `none` (Python `None`), a call returning a non-empty
stripped summary contributes that summary, and a call returning an empty
summary contributes nothing at all. -/
def entryOf (outcome : CallOutcome) : Option (Option String) :=
  match generate_summary outcome with
  | .error _ => some none
  | .ok s => if s = "" then none else some (some s)

end Summarizer

namespace GraphManager

/-- Outcome of the single bulk `UNWIND ... MERGE` query of `load_data`:
the graph state the engine is left in (on failure, whatever it committed
before failing) together with the raised error, if any. -/
structure QueryOutcome (G : Type*) where
  newState : G
  err : Option String

/-- GraphManager.load_data: the bulk query runs inside `try`; on failure
the error is only logged ("Errore durante il caricamento dati: ...") and
the batch is abandoned with no rollback, so the engine state is passed
through untouched.  The trailing unprotected `refresh_schema()` call runs
either way; its outcome is the second oracle.  The result pairs the final
graph state with the optional error log line. -/
def load_data {G : Type*} (query : QueryOutcome G) (refresh : Except String Unit) :
    Except String (G × Option String) :=
  let logged : Option String :=
    match query.err with
    | none => none
    | some e => some ("Errore durante il caricamento dati: " ++ e)
  match refresh with
  | .error e => .error e
  | .ok _ => .ok (query.newState, logged)

end GraphManager

namespace GraphManager

/-- Layout state of `avoid_overlap`: the position dictionary over the
fixed node list `list(G.nodes())`, with exact rational coordinates in
place of floats. -/
abbrev Pos (n : ℕ) := Fin n → ℚ × ℚ

/-- Default `threshold=0.1` of `avoid_overlap`. -/
def threshold : ℚ := 1 / 10

/-- Squared Euclidean distance; `np.linalg.norm(a - b) < threshold` is
compared as `dist2 a b < threshold ^ 2`, which is equivalent for
nonnegative thresholds. -/
def dist2 (p q : ℚ × ℚ) : ℚ := (p.1 - q.1) ^ 2 + (p.2 - q.2) ^ 2

/-- The `dist < threshold` test of `avoid_overlap` for the pair `(i, j)`. -/
def tooClose {n : ℕ} (pos : Pos n) (i j : Fin n) : Prop :=
  dist2 (pos i) (pos j) < threshold ^ 2

instance {n : ℕ} (pos : Pos n) (i j : Fin n) : Decidable (tooClose pos i j) := by
  unfold tooClose
  infer_instance

/-- One repulsion nudge: `pos[node_i] += (0.1, 0.1)` and
`pos[node_j] -= (0.1, 0.1)`. -/
def nudge {n : ℕ} (pos : Pos n) (i j : Fin n) : Pos n := fun k =>
  if k = i then ((pos i).1 + 1 / 10, (pos i).2 + 1 / 10)
  else if k = j then ((pos j).1 - 1 / 10, (pos j).2 - 1 / 10)
  else pos k

/-- Inner `for j` loop for a fixed `i`: skip `j ≤ i` (`if i >= j:
continue`) and report the first `j` with `dist < threshold`, if any. -/
def findClose {n : ℕ} (pos : Pos n) (i : Fin n) : Option (Fin n) :=
  (List.finRange n).find? (fun j => decide (i < j) && decide (tooClose pos i j))

/-- Outer `for i` loop over the remaining node indices: at each `i`, nudge
the first violating `j` (then `break` out of the inner loop only) and
continue with the next `i` on the updated positions.  Returns the final
positions together with the list of nudges performed, whose non-emptiness
is the `overlap` flag. -/
def sweepAux {n : ℕ} : Pos n → List (Fin n) → Pos n × List (Fin n × Fin n)
  | pos, [] => (pos, [])
  | pos, i :: rest =>
      match findClose pos i with
      | some j =>
          let r := sweepAux (nudge pos i j) rest
          (r.1, (i, j) :: r.2)
      | none => sweepAux pos rest

/-- One full pass of the `while overlap` body over all node indices. -/
def sweep {n : ℕ} (pos : Pos n) : Pos n × List (Fin n × Fin n) :=
  sweepAux pos (List.finRange n)

/-- State of the layout after `k` passes of the `while overlap` loop; the
loop of `avoid_overlap` terminates exactly when some pass reports no
nudge. -/
def sweepIter {n : ℕ} (pos : Pos n) : ℕ → Pos n
  | 0 => pos
  | k + 1 => (sweep (sweepIter pos k)).1

/-- Fire-chain predicate: `Fires pos l pos'` means the nudges listed in
`l` are successively performed, each on a pair that is in index order and
within the distance threshold at the moment it is nudged, taking the
layout from `pos` to `pos'`. -/
inductive Fires {n : ℕ} : Pos n → List (Fin n × Fin n) → Pos n → Prop
  | nil (pos : Pos n) : Fires pos [] pos
  | cons {pos pos' : Pos n} (i j : Fin n) (hlt : i < j) (hcl : tooClose pos i j)
      {l : List (Fin n × Fin n)} (h : Fires (nudge pos i j) l pos') :
      Fires pos ((i, j) :: l) pos'

/-- Intermediate state while flattening the sweeps of `avoid_overlap`
into one global nudge sequence: current layout, nudges still pending in
the current sweep, and the index of the current sweep. -/
structure RunSt (n : ℕ) where
  cur : Pos n
  pend : List (Fin n × Fin n)
  k : ℕ

/-- One step of the flattened run: perform the next pending nudge; when
it was the last nudge of its sweep, refill with the nudges of the next
sweep. -/
def nextSt {n : ℕ} (pos0 : Pos n) : RunSt n → RunSt n
  | ⟨cur, [], k⟩ => ⟨cur, [], k⟩
  | ⟨cur, [(i, j)], k⟩ => ⟨nudge cur i j, (sweep (sweepIter pos0 (k + 1))).2, k + 1⟩
  | ⟨cur, (i, j) :: l, k⟩ => ⟨nudge cur i j, l, k⟩

/-- The flattened run of nudges obtained by iterating `avoid_overlap`'s
sweeps from the layout `pos0`. -/
def runSt {n : ℕ} (pos0 : Pos n) : ℕ → RunSt n
  | 0 => ⟨pos0, (sweep pos0).2, 0⟩
  | t + 1 => nextSt pos0 (runSt pos0 t)

/-- Net nudge count of each node along a sequence of nudged pairs: `+1`
whenever the node is the first (smaller-index) component, `-1` whenever
it is the second.  Node `v` sits at its initial position translated by
`mCount pr t v` times the vector `(0.1, 0.1)`. -/
def mCount {n : ℕ} (pr : ℕ → Fin n × Fin n) : ℕ → Fin n → ℤ
  | 0, _ => 0
  | t + 1, v =>
      mCount pr t v + (if v = (pr t).1 then 1 else 0) - (if v = (pr t).2 then 1 else 0)

/-- A node climbs when its net nudge count is unbounded above along the
run. -/
def Climbs {n : ℕ} (m : ℕ → Fin n → ℤ) (v : Fin n) : Prop :=
  ∀ C : ℤ, ∃ t, C ≤ m t v

/-- An infinite run of nudges: at every step the nudged pair is in index
order and within the distance threshold, and the layout evolves by that
nudge.  The repulsion loop of `avoid_overlap` fails to terminate exactly
when it gives rise to such a run. -/
def ValidRun {n : ℕ} (f : ℕ → Pos n) (pr : ℕ → Fin n × Fin n) : Prop :=
  ∀ t, (pr t).1 < (pr t).2 ∧ tooClose (f t) (pr t).1 (pr t).2 ∧
    f (t + 1) = nudge (f t) (pr t).1 (pr t).2

end GraphManager


/-! ## Theorems -/

theorem summarize_go_spec (oracle : ℕ → String → Summarizer.CallOutcome) (cut : ℕ)
    (l : List String) :
    ∀ idx : ℕ,
      Summarizer.summarize_go oracle cut idx l =
        ((List.range l.length).zip l).filterMap
          (fun it => Summarizer.entryOf (oracle (idx + it.1) (it.2.take cut))) := by
  induction l with
  | nil => intro idx; simp [Summarizer.summarize_go]
  | cons t rest ih =>
      intro idx
      have harg :
          ((fun it : ℕ × String => Summarizer.entryOf (oracle (idx + it.1) (it.2.take cut)))
              ∘ Prod.map Nat.succ id)
            = fun it : ℕ × String =>
                Summarizer.entryOf (oracle (idx + 1 + it.1) (it.2.take cut)) := by
        funext it
        simp only [Function.comp_apply, Prod.map, id]
        congr 2
        omega
      simp only [Summarizer.summarize_go, List.length_cons, List.range_succ_eq_map,
        List.zip_cons_cons, List.filterMap_cons, List.zip_map_left, List.filterMap_map,
        harg, ← ih (idx + 1), Nat.add_zero]
      cases ho : Summarizer.generate_summary (oracle idx (t.take cut)) with
      | error e => simp [Summarizer.entryOf, ho]
      | ok s =>
          by_cases hs : s = "" <;> simp [Summarizer.entryOf, ho, hs]

/-- C4 (amended): for every list of input texts, every cutoff and every
outcome of the sequence of remote calls, `summarize_texts` never raises
and yields, in input order, one entry per item whose call fails (the
entry `none`) or succeeds with a non-empty stripped summary (that
summary); an item whose call succeeds with an empty stripped summary
contributes no entry at all, so the result can be shorter than the
input, while a failure on one item still leaves all later items
processed. -/
theorem summarize_texts_batch_shape (texts : List String) (cut : ℕ)
    (oracle : ℕ → String → Summarizer.CallOutcome) :
    Summarizer.summarize_texts texts cut oracle =
      ((List.range texts.length).zip texts).filterMap
        (fun it => Summarizer.entryOf (oracle it.1 (it.2.take cut))) := by
  have h := summarize_go_spec oracle cut texts 0
  simpa [Summarizer.summarize_texts] using h

/-- C4 (counterexample): on the one-element batch `["x"]` with the spec's
cutoff, a remote call that succeeds with an empty completion makes
`summarize_texts` return the empty list: the result does not have one
entry per input text. -/
theorem summarize_texts_empty_summary_drops_entry :
    (Summarizer.summarize_texts ["x"] 20000
        (fun _ _ => .ok ⟨some ""⟩)).length ≠ (["x"] : List String).length := by
  decide

/-- C5: `claim_title_summarize` never raises: for every outcome of the
remote call it returns `none` when the call fails or the response has no
content (any exception is caught and logged), and the stripped
completion on success. -/
theorem claim_title_summarize_catches_failures :
    (∀ e : String, Summarizer.claim_title_summarize (.error e) = none) ∧
    Summarizer.claim_title_summarize (.ok ⟨none⟩) = none ∧
    (∀ s : String, Summarizer.claim_title_summarize (.ok ⟨some s⟩) = some (pyStrip s)) :=
  ⟨fun _ => rfl, rfl, fun _ => rfl⟩

/-- C6: `generate_summary` propagates every failure of the remote call
to the caller as an error — a failed call is re-raised unchanged, a
response without content raises, and only a successful call with content
produces a (stripped) result; no failure is ever turned into a null
result. -/
theorem generate_summary_propagates_failures :
    (∀ e : String, Summarizer.generate_summary (.error e) = .error e) ∧
    Summarizer.generate_summary (.ok ⟨none⟩) = .error "AttributeError" ∧
    (∀ s : String, Summarizer.generate_summary (.ok ⟨some s⟩) = .ok (pyStrip s)) :=
  ⟨fun _ => rfl, rfl, fun _ => rfl⟩

/-- C9: when the bulk graph-load query fails, `load_data` returns
normally to the caller with only a log line recording the error, and the
engine state is passed through exactly as the engine left it — no
rollback of whatever was committed before the failure is attempted. -/
theorem load_data_logs_and_keeps_engine_state {G : Type} (g : G) (e : String) :
    GraphManager.load_data ⟨g, some e⟩ (.ok ()) =
      .ok (g, some ("Errore durante il caricamento dati: " ++ e)) :=
  rfl

theorem zip_foldlM_insertSourceRow {α : Type} (mk : α → String → SourceRow)
    (hid : ∀ a u, (mk a u).id = u) :
    ∀ (data : List α) (uuids : List String) (db : DBState) (S : List SourceRow),
      db.sources = some S → uuids.Nodup →
      (∀ u ∈ uuids, ∀ q ∈ S, ¬ q.id = u) →
      (data.zip uuids).foldlM (fun acc du => insertSourceRow (mk du.1 du.2) acc) db
        = .ok { db with sources := some (S ++ (data.zip uuids).map (fun du => mk du.1 du.2)) } := by
  intro data
  induction data with
  | nil =>
      intro uuids db S hdb _ _
      obtain ⟨c, s, a⟩ := db
      simp only at hdb
      subst hdb
      simp only [List.zip_nil_left, List.foldlM_nil, List.map_nil, List.append_nil]
      rfl
  | cons d ds ih =>
      intro uuids db S hdb hnodup hfresh
      cases uuids with
      | nil =>
          obtain ⟨c, s, a⟩ := db
          simp only at hdb
          subst hdb
          simp only [List.zip_nil_right, List.foldlM_nil, List.map_nil, List.append_nil]
          rfl
      | cons u us =>
          rw [List.nodup_cons] at hnodup
          obtain ⟨c, s, a⟩ := db
          simp only at hdb
          subst hdb
          have hany : (S.any (fun q => q.id == (mk d u).id)) = false := by
            rw [List.any_eq_false]
            intro q hq
            simp only [hid, beq_iff_eq]
            exact hfresh u (List.mem_cons_self u us) q hq
          have hstep : insertSourceRow (mk d u) ⟨c, some S, a⟩
              = .ok ⟨c, some (S ++ [mk d u]), a⟩ := by
            simp [insertSourceRow, hany]
          have hfresh2 : ∀ v ∈ us, ∀ q ∈ S ++ [mk d u], ¬ q.id = v := by
            intro v hv q hq
            rcases List.mem_append.mp hq with hq | hq
            · exact hfresh v (List.mem_cons_of_mem u hv) q hq
            · rcases List.mem_singleton.mp hq with rfl
              rw [hid]
              intro h
              exact hnodup.1 (h ▸ hv)
          have ihres := ih us ⟨c, some (S ++ [mk d u]), a⟩ (S ++ [mk d u])
            rfl hnodup.2 hfresh2
          rw [List.zip_cons_cons, List.foldlM_cons, hstep]
          rw [show ((Except.ok (⟨c, some (S ++ [mk d u]), a⟩ : DBState) : Except DBErr DBState)
              >>= fun b => (ds.zip us).foldlM (fun acc du => insertSourceRow (mk du.1 du.2) acc) b)
            = (ds.zip us).foldlM (fun acc du => insertSourceRow (mk du.1 du.2) acc)
                ⟨c, some (S ++ [mk d u]), a⟩ from rfl]
          rw [ihres]
          simp [List.append_assoc]

theorem filter_claim_append (S rows : List SourceRow) (cid : String)
    (hS : ∀ q ∈ S, ¬ q.claim_id = cid) (hr : ∀ r ∈ rows, r.claim_id = cid) :
    (S ++ rows).filter (fun r => r.claim_id == cid) = rows := by
  rw [List.filter_append]
  have h1 : S.filter (fun r => r.claim_id == cid) = [] := by
    rw [List.filter_eq_nil_iff]
    intro q hq
    simpa using hS q hq
  have h2 : rows.filter (fun r => r.claim_id == cid) = rows := by
    rw [List.filter_eq_self]
    intro r hr'
    simpa using hr r hr'
  rw [h1, h2, List.nil_append]

theorem DbE_add_sources_eq (cid : String) (data : List DbEntities.SourceData)
    (uuids : List String) (db : DBState)
    (hnodup : uuids.Nodup)
    (hfresh : ∀ u ∈ uuids, ∀ q ∈ db.sources.getD [], ¬ q.id = u) :
    DbEntities.Claim.add_sources cid data uuids db
      = .ok { db with sources := some (db.sources.getD [] ++
          (data.zip uuids).map (fun du =>
            ⟨du.2, cid, du.1.title, du.1.url, du.1.site, du.1.body, du.1.topic,
              pyStr du.1.entities⟩)) } := by
  obtain ⟨c, s, a⟩ := db
  unfold DbEntities.Claim.add_sources
  have h := zip_foldlM_insertSourceRow
    (fun (d : DbEntities.SourceData) (u : String) =>
      (⟨u, cid, d.title, d.url, d.site, d.body, d.topic, pyStr d.entities⟩ : SourceRow))
    (fun _ _ => rfl) data uuids ⟨c, some (s.getD []), a⟩ (s.getD []) rfl hnodup hfresh
  simpa [createSourcesTable] using h

theorem RootE_add_sources_eq (cid : String) (data : List RootEntities.SourceData)
    (uuids : List String) (db : DBState)
    (hnodup : uuids.Nodup)
    (hfresh : ∀ u ∈ uuids, ∀ q ∈ db.sources.getD [], ¬ q.id = u) :
    RootEntities.Claim.add_sources cid data uuids db
      = .ok { db with sources := some (db.sources.getD [] ++
          (data.zip uuids).map (fun du =>
            ⟨du.2, cid, du.1.title, du.1.url, du.1.site, du.1.body, du.1.topic,
              du.1.entities⟩)) } := by
  obtain ⟨c, s, a⟩ := db
  unfold RootEntities.Claim.add_sources
  have h := zip_foldlM_insertSourceRow
    (fun (d : RootEntities.SourceData) (u : String) =>
      (⟨u, cid, d.title, d.url, d.site, d.body, d.topic, d.entities⟩ : SourceRow))
    (fun _ _ => rfl) data uuids ⟨c, some (s.getD []), a⟩ (s.getD []) rfl hnodup hfresh
  simpa [createSourcesTable] using h

theorem get_dict_sources_eq (cid : String) (db : DBState) (rows : List SourceRow)
    (hdb : db.sources = some rows) :
    DbEntities.Claim.get_dict_sources cid db
      = .ok ((rows.filter (fun r => r.claim_id == cid)).map
          (fun r => ⟨r.id, r.claim_id, r.title, r.url, r.site, r.body, r.topic, r.entities⟩)) := by
  unfold DbEntities.Claim.get_dict_sources fetchSourcesByClaim
  rw [hdb]
  rfl

theorem get_sources_eq (cid : String) (db : DBState) (rows : List SourceRow)
    (hdb : db.sources = some rows) :
    RootEntities.Claim.get_sources cid db
      = .ok ((rows.filter (fun r => r.claim_id == cid)).map
          (fun r => ⟨r.id, r.claim_id, r.title, r.url, r.site, r.body, r.entities, r.topic⟩)) := by
  unfold RootEntities.Claim.get_sources fetchSourcesByClaim
  rw [hdb]
  rfl

theorem zip_map_fst_eq {α β γ : Type} (f : α → γ) (l1 : List α) (l2 : List β)
    (h : l1.length ≤ l2.length) :
    (l1.zip l2).map (fun du => f du.1) = l1.map f := by
  rw [show (fun du : α × β => f du.1) = f ∘ Prod.fst from rfl, ← List.map_map,
    List.map_fst_zip _ _ h]

/-- C2 (counterexample): in the titled variant, adding a source whose
`entities` field is the collection `["a"]` and reading it back via
`get_dict_sources` returns the rendered string `"['a']"` for that field;
as a Python value this is not equal to the supplied collection, so the
records read back do not carry the same field values as the records
added. -/
theorem get_dict_sources_entities_value_differs :
    (DbEntities.Claim.add_sources "c"
        [⟨"t", "u", "s", "b", "top", PyVal.list ["a"]⟩] ["id1"] DBState.empty).bind
      (DbEntities.Claim.get_dict_sources "c")
      = .ok [⟨"id1", "c", "t", "u", "s", "b", "top", "['a']"⟩] ∧
    PyVal.str "['a']" ≠ PyVal.list ["a"] := by
  constructor
  · rfl
  · decide

/-- C2 (amended): for every claim identifier and batch of source records
added to it under a store whose pre-existing sources belong to other
claims (with fresh, pairwise-distinct generated identifiers), a
subsequent read returns exactly one record per added record, in
insertion order — so the multiset of records retrieved is independent of
the batch's insertion order — and no source of another claim.  In the
root variant (`get_sources`) every field comes back exactly as supplied;
in the titled variant (`get_dict_sources`) every field except `entities`
comes back as supplied, while `entities` comes back as the `str(...)`
rendering of the supplied value (the identity for string values). -/
theorem add_then_get_sources_roundtrip
    (cid : String) (db : DBState)
    (dataR : List RootEntities.SourceData) (uuidsR : List String)
    (dataT : List DbEntities.SourceData) (uuidsT : List String)
    (hprior : ∀ q ∈ db.sources.getD [], ¬ q.claim_id = cid)
    (hnodupR : uuidsR.Nodup) (hlenR : uuidsR.length = dataR.length)
    (hfreshR : ∀ u ∈ uuidsR, ∀ q ∈ db.sources.getD [], ¬ q.id = u)
    (hnodupT : uuidsT.Nodup) (hlenT : uuidsT.length = dataT.length)
    (hfreshT : ∀ u ∈ uuidsT, ∀ q ∈ db.sources.getD [], ¬ q.id = u) :
    (∃ db' out, RootEntities.Claim.add_sources cid dataR uuidsR db = .ok db' ∧
        RootEntities.Claim.get_sources cid db' = .ok out ∧
        out.map (fun s => (s.title, s.url, s.site, s.body, s.entities, s.topic))
          = dataR.map (fun d => (d.title, d.url, d.site, d.body, d.entities, d.topic)) ∧
        out.length = dataR.length ∧
        (∀ s ∈ out, s.claim_id = cid)) ∧
    (∃ db' out, DbEntities.Claim.add_sources cid dataT uuidsT db = .ok db' ∧
        DbEntities.Claim.get_dict_sources cid db' = .ok out ∧
        out.map (fun o => (o.title, o.url, o.site, o.body, o.topic))
          = dataT.map (fun d => (d.title, d.url, d.site, d.body, d.topic)) ∧
        out.map (fun o => o.entities) = dataT.map (fun d => pyStr d.entities) ∧
        out.length = dataT.length ∧
        (∀ o ∈ out, o.claim_id = cid)) := by
  constructor
  · have hadd := RootE_add_sources_eq cid dataR uuidsR db hnodupR hfreshR
    have hget := get_sources_eq cid
      { db with sources := some (db.sources.getD [] ++
          (dataR.zip uuidsR).map (fun du =>
            ⟨du.2, cid, du.1.title, du.1.url, du.1.site, du.1.body, du.1.topic,
              du.1.entities⟩)) }
      (db.sources.getD [] ++
          (dataR.zip uuidsR).map (fun du =>
            ⟨du.2, cid, du.1.title, du.1.url, du.1.site, du.1.body, du.1.topic,
              du.1.entities⟩)) rfl
    rw [filter_claim_append _ _ _ hprior (by
      intro r hr
      obtain ⟨du, hdu, rfl⟩ := List.mem_map.mp hr
      rfl)] at hget
    refine ⟨_, _, hadd, hget, ?_, ?_, ?_⟩
    · rw [List.map_map, List.map_map]
      exact zip_map_fst_eq
        (fun d : RootEntities.SourceData =>
          (d.title, d.url, d.site, d.body, d.entities, d.topic)) dataR uuidsR (by omega)
    · simp only [List.length_map, List.length_zip]
      omega
    · intro s hs
      obtain ⟨r, hr, rfl⟩ := List.mem_map.mp hs
      obtain ⟨du, hdu, rfl⟩ := List.mem_map.mp hr
      rfl
  · have hadd := DbE_add_sources_eq cid dataT uuidsT db hnodupT hfreshT
    have hget := get_dict_sources_eq cid
      { db with sources := some (db.sources.getD [] ++
          (dataT.zip uuidsT).map (fun du =>
            ⟨du.2, cid, du.1.title, du.1.url, du.1.site, du.1.body, du.1.topic,
              pyStr du.1.entities⟩)) }
      (db.sources.getD [] ++
          (dataT.zip uuidsT).map (fun du =>
            ⟨du.2, cid, du.1.title, du.1.url, du.1.site, du.1.body, du.1.topic,
              pyStr du.1.entities⟩)) rfl
    rw [filter_claim_append _ _ _ hprior (by
      intro r hr
      obtain ⟨du, hdu, rfl⟩ := List.mem_map.mp hr
      rfl)] at hget
    refine ⟨_, _, hadd, hget, ?_, ?_, ?_, ?_⟩
    · rw [List.map_map, List.map_map]
      exact zip_map_fst_eq
        (fun d : DbEntities.SourceData =>
          (d.title, d.url, d.site, d.body, d.topic)) dataT uuidsT (by omega)
    · rw [List.map_map, List.map_map]
      exact zip_map_fst_eq
        (fun d : DbEntities.SourceData => pyStr d.entities) dataT uuidsT (by omega)
    · simp only [List.length_map, List.length_zip]
      omega
    · intro o ho
      obtain ⟨r, hr, rfl⟩ := List.mem_map.mp ho
      obtain ⟨du, hdu, rfl⟩ := List.mem_map.mp hr
      rfl

/-- C2 (witness): the amended roundtrip instantiated on a store holding
one source of another claim, a two-record batch for the root variant and
a one-record batch for the titled variant. -/
theorem add_then_get_sources_roundtrip_witness :
    (["a1", "a2"] : List String).Nodup ∧
    ((∃ db' out, RootEntities.Claim.add_sources "c"
          [⟨"t1", "u1", "s1", "b1", "e1", "tp1"⟩, ⟨"t2", "u2", "s2", "b2", "e2", "tp2"⟩]
          ["a1", "a2"]
          ⟨none, some [⟨"x0", "other", "t0", "u0", "s0", "b0", "tp0", "e0"⟩], none⟩ = .ok db' ∧
        RootEntities.Claim.get_sources "c" db' = .ok out ∧
        out.map (fun s => (s.title, s.url, s.site, s.body, s.entities, s.topic))
          = [⟨"t1", "u1", "s1", "b1", "e1", "tp1"⟩,
              (⟨"t2", "u2", "s2", "b2", "e2", "tp2"⟩ : RootEntities.SourceData)].map
              (fun d => (d.title, d.url, d.site, d.body, d.entities, d.topic)) ∧
        out.length = 2 ∧
        (∀ s ∈ out, s.claim_id = "c")) ∧
      (∃ db' out, DbEntities.Claim.add_sources "c"
          [⟨"T1", "U1", "S1", "B1", "TP1", PyVal.str "E1"⟩] ["b1"]
          ⟨none, some [⟨"x0", "other", "t0", "u0", "s0", "b0", "tp0", "e0"⟩], none⟩ = .ok db' ∧
        DbEntities.Claim.get_dict_sources "c" db' = .ok out ∧
        out.map (fun o => (o.title, o.url, o.site, o.body, o.topic))
          = [(⟨"T1", "U1", "S1", "B1", "TP1", PyVal.str "E1"⟩ : DbEntities.SourceData)].map
              (fun d => (d.title, d.url, d.site, d.body, d.topic)) ∧
        out.map (fun o => o.entities)
          = [(⟨"T1", "U1", "S1", "B1", "TP1", PyVal.str "E1"⟩ : DbEntities.SourceData)].map
              (fun d => pyStr d.entities) ∧
        out.length = 1 ∧
        (∀ o ∈ out, o.claim_id = "c"))) := by
  refine ⟨by decide, ?_⟩
  exact add_then_get_sources_roundtrip "c"
    ⟨none, some [⟨"x0", "other", "t0", "u0", "s0", "b0", "tp0", "e0"⟩], none⟩
    [⟨"t1", "u1", "s1", "b1", "e1", "tp1"⟩, ⟨"t2", "u2", "s2", "b2", "e2", "tp2"⟩]
    ["a1", "a2"]
    [⟨"T1", "U1", "S1", "B1", "TP1", PyVal.str "E1"⟩] ["b1"]
    (by decide) (by decide) (by decide) (by decide) (by decide) (by decide) (by decide)

/-- C10: in the titled variant, `add_sources` stores the `entities` field
of every record as Python's string rendering `str(entities)` of the
supplied value, so a subsequent `get_dict_sources` returns that rendered
string for each record, and for a supplied entities list the value read
back (a string) is never equal to the original collection. -/
theorem add_sources_stores_str_of_entities
    (cid : String) (db : DBState) (data : List DbEntities.SourceData) (uuids : List String)
    (hprior : ∀ q ∈ db.sources.getD [], ¬ q.claim_id = cid)
    (hnodup : uuids.Nodup) (hlen : uuids.length = data.length)
    (hfresh : ∀ u ∈ uuids, ∀ q ∈ db.sources.getD [], ¬ q.id = u) :
    ∃ db' out, DbEntities.Claim.add_sources cid data uuids db = .ok db' ∧
      DbEntities.Claim.get_dict_sources cid db' = .ok out ∧
      out.map (fun o => o.entities) = data.map (fun d => pyStr d.entities) ∧
      (∀ xs : List String, PyVal.str (pyStr (PyVal.list xs)) ≠ PyVal.list xs) := by
  have hadd := DbE_add_sources_eq cid data uuids db hnodup hfresh
  have hget := get_dict_sources_eq cid
    { db with sources := some (db.sources.getD [] ++
        (data.zip uuids).map (fun du =>
          ⟨du.2, cid, du.1.title, du.1.url, du.1.site, du.1.body, du.1.topic,
            pyStr du.1.entities⟩)) }
    (db.sources.getD [] ++
        (data.zip uuids).map (fun du =>
          ⟨du.2, cid, du.1.title, du.1.url, du.1.site, du.1.body, du.1.topic,
            pyStr du.1.entities⟩)) rfl
  rw [filter_claim_append _ _ _ hprior (by
    intro r hr
    obtain ⟨du, hdu, rfl⟩ := List.mem_map.mp hr
    rfl)] at hget
  refine ⟨_, _, hadd, hget, ?_, ?_⟩
  · rw [List.map_map, List.map_map]
    exact zip_map_fst_eq
      (fun d : DbEntities.SourceData => pyStr d.entities) data uuids (by omega)
  · intro xs h
    exact PyVal.noConfusion h

/-- C10 (witness): a one-record batch with the entities collection
`["a", "b"]` is stored and read back as the string `"['a', 'b']"`, which
differs from the collection itself. -/
theorem add_sources_stores_str_of_entities_witness :
    (["id1"] : List String).Nodup ∧
    (∃ db' out, DbEntities.Claim.add_sources "c"
        [⟨"t", "u", "s", "b", "top", PyVal.list ["a", "b"]⟩] ["id1"] DBState.empty = .ok db' ∧
      DbEntities.Claim.get_dict_sources "c" db' = .ok out ∧
      out.map (fun o => o.entities) = ["['a', 'b']"] ∧
      PyVal.str "['a', 'b']" ≠ PyVal.list ["a", "b"]) := by
  refine ⟨by decide, ?_⟩
  obtain ⟨db', out, h1, h2, h3, h4⟩ :=
    add_sources_stores_str_of_entities "c" DBState.empty
      [⟨"t", "u", "s", "b", "top", PyVal.list ["a", "b"]⟩] ["id1"]
      (by intro q hq; simp [DBState.empty] at hq)
      (by decide) (by decide)
      (by intro u hu q hq; simp [DBState.empty] at hq)
  refine ⟨db', out, h1, h2, ?_, h4 ["a", "b"]⟩
  rw [h3]
  decide

/-- C1 (counterexample): supplying the empty string as the claim
identifier does not make the constructor use the supplied identifier:
Python truthiness treats `""` like `None`, so a fresh UUID is assigned
instead. -/
theorem claim_create_ignores_empty_supplied_id :
    (DbEntities.Claim.create "t" "ab" "s" (some "") "fresh-uuid" DBState.empty).map
        (fun p => p.1.id) = .ok "fresh-uuid" ∧ ("fresh-uuid" : String) ≠ "" :=
  ⟨rfl, by decide⟩

/-- C1 (amended): for every valid input with a title of length at least
two, constructing a claim assigns as identifier the supplied string when
it is non-empty and a fresh UUID when `None` or an empty string is
supplied, stores the supplied title with its first two characters
removed, and persists the row so that re-reading it by identifier
returns exactly the truncated title (the generated identifier is assumed
fresh, as UUIDs are). -/
theorem claim_create_persists_truncated_title
    (text title summary : String) (claim_id : Option String) (fresh : String) (db : DBState)
    (htitle : 2 ≤ title.length)
    (hfresh : ∀ q ∈ db.claims.getD [], ¬ q.id = DbEntities.resolveId claim_id fresh) :
    ∃ db',
      DbEntities.Claim.create text title summary claim_id fresh db
        = .ok (⟨DbEntities.resolveId claim_id fresh, text, title.drop 2, summary⟩, db') ∧
      fetchClaimById (DbEntities.resolveId claim_id fresh) db'
        = .ok (some ⟨DbEntities.resolveId claim_id fresh, text, title.drop 2, summary⟩) ∧
      (title.drop 2).length + 2 = title.length ∧
      ((claim_id = none ∨ claim_id = some "") → DbEntities.resolveId claim_id fresh = fresh) ∧
      (∀ s, claim_id = some s → ¬ s = "" → DbEntities.resolveId claim_id fresh = s) := by
  obtain ⟨c, s, a⟩ := db
  have hany : ((c.getD []).any
      (fun q => q.id == DbEntities.resolveId claim_id fresh)) = false := by
    rw [List.any_eq_false]
    intro q hq
    simpa using hfresh q hq
  refine ⟨⟨some ((c.getD []) ++
      [⟨DbEntities.resolveId claim_id fresh, text, title.drop 2, summary⟩]), s, a⟩,
    ?_, ?_, ?_, ?_, ?_⟩
  · unfold DbEntities.Claim.create DbEntities.Claim.save_to_db insertClaimRow createClaimsTable
    simp only [hany, Bool.false_eq_true, if_false]
    rfl
  · unfold fetchClaimById
    simp only
    rw [List.filter_append]
    have h1 : (c.getD []).filter
        (fun q => q.id == DbEntities.resolveId claim_id fresh) = [] := by
      rw [List.filter_eq_nil_iff]
      intro q hq
      simpa using hfresh q hq
    rw [h1]
    simp
  · have hdrop : (title.drop 2).length = title.length - 2 := by
      rw [String.drop_eq]
      show (title.data.drop 2).length = title.data.length - 2
      simp
    omega
  · rintro (rfl | rfl) <;> simp [DbEntities.resolveId]
  · rintro s rfl hs
    simp [DbEntities.resolveId, hs]

/-- C1 (witness): constructing a claim with no supplied identifier on an
empty store assigns the fresh UUID, stores the title `"IDTitle"` as
`"Title"`, and re-reading the row returns that truncated title. -/
theorem claim_create_persists_truncated_title_witness :
    2 ≤ ("IDTitle" : String).length ∧
    ∃ db', DbEntities.Claim.create "some text" "IDTitle" "sum" none "uuid-1" DBState.empty
        = .ok (⟨"uuid-1", "some text", "Title", "sum"⟩, db') ∧
      fetchClaimById "uuid-1" db' = .ok (some ⟨"uuid-1", "some text", "Title", "sum"⟩) := by
  refine ⟨by decide, ?_⟩
  obtain ⟨db', h1, h2, -, -, -⟩ :=
    claim_create_persists_truncated_title "some text" "IDTitle" "sum" none "uuid-1"
      DBState.empty (by decide) (by intro q hq; simp [DBState.empty] at hq)
  have e2 : ("IDTitle" : String).drop 2 = "Title" := by decide
  rw [show DbEntities.resolveId none "uuid-1" = "uuid-1" from rfl, e2] at h1 h2
  exact ⟨db', h1, h2⟩

/-- C3 (counterexample): `clear_database` issues its deletes without
creating tables first, so on a store state where no table exists yet it
fails with a missing-table error instead of completing: the claim does
not hold for every store state. -/
theorem clear_database_errors_on_missing_tables :
    DbEntities.Claim.clear_database "c" DBState.empty = .error (.noSuchTable "claims") := rfl

/-- C3 (amended): on every store state in which the three tables exist,
`clear(claim_id)` deletes the claim row and all source and answer rows
keyed by the claim identifier — afterwards `get_sources` returns the
empty list, `has_answer` returns false and no claim row with that
identifier remains — and a second clear in succession completes without
error and changes nothing. -/
theorem clear_database_clears_and_is_idempotent
    (cid : String) (db : DBState) (C : List ClaimRow) (S : List SourceRow) (A : List AnswerRow)
    (hc : db.claims = some C) (hs : db.sources = some S) (ha : db.answers = some A) :
    ∃ db', DbEntities.Claim.clear_database cid db = .ok db' ∧
      DbEntities.Claim.get_dict_sources cid db' = .ok [] ∧
      DbEntities.Claim.has_answer cid db' = .ok false ∧
      (∀ q ∈ db'.claims.getD [], ¬ q.id = cid) ∧
      DbEntities.Claim.clear_database cid db' = .ok db' := by
  obtain ⟨oc, os, oa⟩ := db
  simp only at hc hs ha
  subst hc
  subst hs
  subst ha
  refine ⟨⟨some (C.filter (fun r => !(r.id == cid))),
           some (S.filter (fun r => !(r.claim_id == cid))),
           some (A.filter (fun r => !(r.claim_id == cid)))⟩, rfl, ?_, ?_, ?_, ?_⟩
  · unfold DbEntities.Claim.get_dict_sources fetchSourcesByClaim
    simp only [List.filter_filter]
    rw [show (fun (r : SourceRow) => r.claim_id == cid && !(r.claim_id == cid))
        = fun _ => false from by funext r; cases h : r.claim_id == cid <;> simp [h]]
    rw [List.filter_false]
    rfl
  · unfold DbEntities.Claim.has_answer fetchAnswerByClaim
    simp only [List.filter_filter]
    rw [show (fun (r : AnswerRow) => r.claim_id == cid && !(r.claim_id == cid))
        = fun _ => false from by funext r; cases h : r.claim_id == cid <;> simp [h]]
    rw [List.filter_false]
    rfl
  · intro q hq
    simp only [Option.getD_some] at hq
    have := List.of_mem_filter hq
    simpa using this
  · have e1 : (C.filter (fun r => !(r.id == cid))).filter (fun r => !(r.id == cid))
        = C.filter (fun r => !(r.id == cid)) := by
      rw [List.filter_filter]
      simp
    have e2 : (S.filter (fun r => !(r.claim_id == cid))).filter (fun r => !(r.claim_id == cid))
        = S.filter (fun r => !(r.claim_id == cid)) := by
      rw [List.filter_filter]
      simp
    have e3 : (A.filter (fun r => !(r.claim_id == cid))).filter (fun r => !(r.claim_id == cid))
        = A.filter (fun r => !(r.claim_id == cid)) := by
      rw [List.filter_filter]
      simp
    have hrun : DbEntities.Claim.clear_database cid
        (⟨some (C.filter (fun r => !(r.id == cid))),
          some (S.filter (fun r => !(r.claim_id == cid))),
          some (A.filter (fun r => !(r.claim_id == cid)))⟩ : DBState)
        = .ok ⟨some ((C.filter (fun r => !(r.id == cid))).filter (fun r => !(r.id == cid))),
            some ((S.filter (fun r => !(r.claim_id == cid))).filter (fun r => !(r.claim_id == cid))),
            some ((A.filter (fun r => !(r.claim_id == cid))).filter (fun r => !(r.claim_id == cid)))⟩ :=
      rfl
    rw [hrun, e1, e2, e3]

/-- C3 (witness): the amended clear behaviour on a concrete store holding
two claims, one source each for this and another claim, and one answer
for the cleared claim. -/
theorem clear_database_clears_and_is_idempotent_witness :
    (⟨some [⟨"c", "txt", "ttl", "sm"⟩, ⟨"d", "t2", "T2", "s2"⟩],
      some [⟨"s1", "c", "a", "b", "e", "f", "g", "h"⟩, ⟨"s2", "d", "a", "b", "e", "f", "g", "h"⟩],
      some [⟨"a1", "c", "ans", "gf"⟩]⟩ : DBState).claims
        = some [⟨"c", "txt", "ttl", "sm"⟩, ⟨"d", "t2", "T2", "s2"⟩] ∧
    ∃ db', DbEntities.Claim.clear_database "c"
        ⟨some [⟨"c", "txt", "ttl", "sm"⟩, ⟨"d", "t2", "T2", "s2"⟩],
         some [⟨"s1", "c", "a", "b", "e", "f", "g", "h"⟩, ⟨"s2", "d", "a", "b", "e", "f", "g", "h"⟩],
         some [⟨"a1", "c", "ans", "gf"⟩]⟩ = .ok db' ∧
      DbEntities.Claim.get_dict_sources "c" db' = .ok [] ∧
      DbEntities.Claim.has_answer "c" db' = .ok false ∧
      (∀ q ∈ db'.claims.getD [], ¬ q.id = "c") ∧
      DbEntities.Claim.clear_database "c" db' = .ok db' :=
  ⟨rfl, clear_database_clears_and_is_idempotent "c" _ _ _ _ rfl rfl rfl⟩

theorem foldlM_insertSourceRow_no_missing {α : Type} (f : α → SourceRow) :
    ∀ (l : List α) (db : DBState) (R : List SourceRow), db.sources = some R →
      ∀ t, ¬ l.foldlM (fun acc a => insertSourceRow (f a) acc) db
        = .error (.noSuchTable t) := by
  intro l
  induction l with
  | nil =>
      intro db R hdb t h
      rw [List.foldlM_nil] at h
      exact Except.noConfusion h
  | cons x xs ih =>
      intro db R hdb t h
      obtain ⟨c, s, a⟩ := db
      simp only at hdb
      subst hdb
      rw [List.foldlM_cons] at h
      by_cases hany : ((R.any (fun q => q.id == (f x).id)) = true)
      · rw [show insertSourceRow (f x) ⟨c, some R, a⟩
            = .error (.uniqueViolation "sources.id") from by
          simp [insertSourceRow, hany]] at h
        exact DBErr.noConfusion (Except.error.inj h)
      · have hany2 : (R.any (fun q => q.id == (f x).id)) = false :=
          Bool.eq_false_iff.mpr hany
        rw [show insertSourceRow (f x) ⟨c, some R, a⟩
            = .ok ⟨c, some (R ++ [f x]), a⟩ from by
          simp [insertSourceRow, hany2]] at h
        exact ih ⟨c, some (R ++ [f x]), a⟩ (R ++ [f x]) rfl t h

/-- C8 (counterexample): the delete path is also a write path of the
persistence model, but `clear_database` does not ensure its tables exist
before deleting: against a store in which the `answers` table is absent
it fails with a missing-table error, so not every write path is safe on
a store missing its table. -/
theorem clear_database_skips_table_creation :
    DbEntities.Claim.clear_database "c" ⟨some [], some [], none⟩
      = .error (.noSuchTable "answers") := rfl

/-- C8 (amended): every row-inserting write path (claim save, source
batch add, answer save) first issues `CREATE TABLE IF NOT EXISTS`, which
is idempotent under repeated execution and preserves existing rows, so
none of these operations can fail with a missing-table error on any
store state; the delete path (`clear_database`) issues no such statement
and fails with a missing-table error on a store whose tables are
absent. -/
theorem insert_paths_ensure_tables :
    (∀ db, createClaimsTable (createClaimsTable db) = createClaimsTable db) ∧
    (∀ db, createSourcesTable (createSourcesTable db) = createSourcesTable db) ∧
    (∀ db, createAnswersTable (createAnswersTable db) = createAnswersTable db) ∧
    (∀ db, (createClaimsTable db).claims = some (db.claims.getD [])
      ∧ (createSourcesTable db).sources = some (db.sources.getD [])
      ∧ (createAnswersTable db).answers = some (db.answers.getD [])) ∧
    (∀ r db t, ¬ DbEntities.Claim.save_to_db r db = .error (.noSuchTable t)) ∧
    (∀ cid data uuids db t,
      ¬ DbEntities.Claim.add_sources cid data uuids db = .error (.noSuchTable t)) ∧
    (∀ aid cid answer gf db t,
      ¬ DbEntities.Answer.save_to_db aid cid answer gf db = .error (.noSuchTable t)) ∧
    DbEntities.Claim.clear_database "c" ⟨none, some [], some []⟩
      = .error (.noSuchTable "claims") := by
  refine ⟨fun db => by obtain ⟨c, s, a⟩ := db; rfl,
    fun db => by obtain ⟨c, s, a⟩ := db; rfl,
    fun db => by obtain ⟨c, s, a⟩ := db; rfl,
    fun db => ⟨rfl, rfl, rfl⟩, ?_, ?_, ?_, rfl⟩
  · intro r db t h
    obtain ⟨c, s, a⟩ := db
    unfold DbEntities.Claim.save_to_db insertClaimRow createClaimsTable at h
    simp only at h
    by_cases hany : (((c.getD []).any (fun q => q.id == r.id)) = true)
    · simp [hany] at h
    · simp [hany] at h
  · intro cid data uuids db t h
    exact foldlM_insertSourceRow_no_missing
      (fun du : DbEntities.SourceData × String =>
        (⟨du.2, cid, du.1.title, du.1.url, du.1.site, du.1.body, du.1.topic,
          pyStr du.1.entities⟩ : SourceRow))
      (data.zip uuids) (createSourcesTable db) (db.sources.getD [])
      (by obtain ⟨c, s, a⟩ := db; rfl) t h
  · intro aid cid answer gf db t h
    obtain ⟨c, s, a⟩ := db
    unfold DbEntities.Answer.save_to_db insertAnswerRow createAnswersTable at h
    simp only at h
    by_cases hany : (((a.getD []).any (fun q => q.id == aid)) = true)
    · simp [hany] at h
    · simp [hany] at h

open GraphManager

theorem mCount_succ {n : ℕ} (pr : ℕ → Fin n × Fin n) (t : ℕ) (v : Fin n) :
    mCount pr (t + 1) v = mCount pr t v
      + (if v = (pr t).1 then 1 else 0) - (if v = (pr t).2 then 1 else 0) := rfl

theorem mCount_step_le {n : ℕ} (pr : ℕ → Fin n × Fin n) (t : ℕ) (v : Fin n) :
    mCount pr (t + 1) v ≤ mCount pr t v + 1 := by
  rw [mCount_succ]
  split_ifs <;> omega

theorem validRun_pos_eq {n : ℕ} {f : ℕ → Pos n} {pr : ℕ → Fin n × Fin n}
    (h : ValidRun f pr) :
    ∀ t v, (f t v).1 = (f 0 v).1 + (mCount pr t v : ℚ) / 10
      ∧ (f t v).2 = (f 0 v).2 + (mCount pr t v : ℚ) / 10 := by
  intro t
  induction t with
  | zero => intro v; simp [mCount]
  | succ t ih =>
      intro v
      obtain ⟨hlt, hcl, hf⟩ := h t
      have hne : (pr t).1 ≠ (pr t).2 := Fin.ne_of_lt hlt
      obtain ⟨ihx, ihy⟩ := ih v
      rw [hf]
      by_cases h1 : v = (pr t).1
      · subst h1
        have hx : (nudge (f t) (pr t).1 (pr t).2 (pr t).1).1 = (f t (pr t).1).1 + 1/10 := by
          simp [nudge]
        have hy : (nudge (f t) (pr t).1 (pr t).2 (pr t).1).2 = (f t (pr t).1).2 + 1/10 := by
          simp [nudge]
        rw [hx, hy, ihx, ihy, mCount_succ, if_pos rfl, if_neg hne]
        push_cast
        constructor <;> ring
      · by_cases h2 : v = (pr t).2
        · subst h2
          have hx : (nudge (f t) (pr t).1 (pr t).2 (pr t).2).1
              = (f t (pr t).2).1 - 1/10 := by
            simp [nudge, (Ne.symm hne)]
          have hy : (nudge (f t) (pr t).1 (pr t).2 (pr t).2).2
              = (f t (pr t).2).2 - 1/10 := by
            simp [nudge, (Ne.symm hne)]
          rw [hx, hy, ihx, ihy, mCount_succ, if_neg (Ne.symm hne), if_pos rfl]
          push_cast
          constructor <;> ring
        · have hx : (nudge (f t) (pr t).1 (pr t).2 v).1 = (f t v).1 := by
            simp [nudge, h1, h2]
          have hy : (nudge (f t) (pr t).1 (pr t).2 v).2 = (f t v).2 := by
            simp [nudge, h1, h2]
          rw [hx, hy, ihx, ihy, mCount_succ, if_neg h1, if_neg h2]
          push_cast
          constructor <;> ring

theorem tooClose_mdiff_le {n : ℕ} {f : ℕ → Pos n} {pr : ℕ → Fin n × Fin n}
    (h : ValidRun f pr) (u l : Fin n) (t : ℕ) (hcl : tooClose (f t) u l) :
    mCount pr t u - mCount pr t l ≤ ⌈(1 : ℚ) - 10 * ((f 0 u).1 - (f 0 l).1)⌉ := by
  have hu := (validRun_pos_eq h t u).1
  have hl := (validRun_pos_eq h t l).1
  unfold tooClose dist2 threshold at hcl
  have hx : (f t u).1 - (f t l).1
      = ((f 0 u).1 - (f 0 l).1) + ((mCount pr t u - mCount pr t l : ℤ) : ℚ) / 10 := by
    rw [hu, hl]
    push_cast
    ring
  have hsq : ((f t u).1 - (f t l).1) ^ 2 < (1/10) ^ 2 := by
    nlinarith [sq_nonneg ((f t u).2 - (f t l).2)]
  have hlt : ((mCount pr t u - mCount pr t l : ℤ) : ℚ)
      < 1 - 10 * ((f 0 u).1 - (f 0 l).1) := by
    by_contra hge
    push_neg at hge
    have h110 : (1:ℚ)/10
        ≤ ((f 0 u).1 - (f 0 l).1) + ((mCount pr t u - mCount pr t l : ℤ) : ℚ) / 10 := by
      linarith
    have hp := pow_le_pow_left₀ (by norm_num : (0:ℚ) ≤ 1/10) h110 2
    rw [← hx] at hp
    linarith
  have hceil := Int.le_ceil ((1 : ℚ) - 10 * ((f 0 u).1 - (f 0 l).1))
  have hfin : ((mCount pr t u - mCount pr t l : ℤ) : ℚ)
      < ((⌈(1 : ℚ) - 10 * ((f 0 u).1 - (f 0 l).1)⌉ : ℤ) : ℚ) :=
    lt_of_lt_of_le hlt hceil
  have : (mCount pr t u - mCount pr t l) < ⌈(1 : ℚ) - 10 * ((f 0 u).1 - (f 0 l).1)⌉ := by
    exact_mod_cast hfin
  omega

theorem climbs_step {n : ℕ} {f : ℕ → Pos n} {pr : ℕ → Fin n × Fin n}
    (h : ValidRun f pr) (u : Fin n) (hu : Climbs (mCount pr) u) :
    ∃ l, u < l ∧ Climbs (mCount pr) l := by
  have key : ∀ C : ℕ, ∃ s l, pr s = (u, l) ∧
      (C : ℤ) ≤ mCount pr s l + ⌈(1 : ℚ) - 10 * ((f 0 u).1 - (f 0 l).1)⌉ := by
    intro C
    have hex : ∃ t, (C : ℤ) + 1 ≤ mCount pr t u := hu ((C : ℤ) + 1)
    have hQ : (C : ℤ) + 1 ≤ mCount pr (Nat.find hex) u := Nat.find_spec hex
    have ht0 : Nat.find hex ≠ 0 := by
      intro h0
      rw [h0] at hQ
      have hz : mCount pr 0 u = 0 := rfl
      rw [hz] at hQ
      have hC0 : (0 : ℤ) ≤ (C : ℤ) := Int.natCast_nonneg C
      omega
    obtain ⟨s, hs⟩ := Nat.exists_eq_succ_of_ne_zero ht0
    rw [hs, Nat.succ_eq_add_one] at hQ
    have hnotQ : ¬ ((C : ℤ) + 1 ≤ mCount pr s u) :=
      Nat.find_min hex (by rw [hs]; exact Nat.lt_succ_self s)
    have heq := mCount_succ pr s u
    have e1 : u = (pr s).1 := by
      by_contra hne1
      rw [if_neg hne1] at heq
      split_ifs at heq <;> omega
    have e2 : ¬ u = (pr s).2 := by
      intro he2
      have hlt := (h s).1
      rw [← e1, ← he2] at hlt
      exact lt_irrefl u hlt
    rw [if_pos e1, if_neg e2] at heq
    have hcl : tooClose (f s) u (pr s).2 := by
      have hc := (h s).2.1
      rwa [← e1] at hc
    have hprs : pr s = (u, (pr s).2) := by
      rw [e1]
    have hb := tooClose_mdiff_le h u (pr s).2 s hcl
    exact ⟨s, (pr s).2, hprs, by omega⟩
  choose sfn lfn hpr hle using key
  obtain ⟨l0, hl0⟩ := Finite.exists_infinite_fiber lfn
  have hinf : (Set.preimage lfn {l0}).Infinite := Set.infinite_coe_iff.mp hl0
  obtain ⟨C0, hC0⟩ := hinf.nonempty
  have hC0eq : lfn C0 = l0 := by simpa using hC0
  have hul : u < l0 := by
    have hlt := (h (sfn C0)).1
    rw [hpr C0] at hlt
    simpa [hC0eq] using hlt
  refine ⟨l0, hul, ?_⟩
  intro C
  obtain ⟨C1, hC1mem, hC1gt⟩ :=
    hinf.exists_gt (C + ⌈(1 : ℚ) - 10 * ((f 0 u).1 - (f 0 l0).1)⌉).toNat
  have hC1eq : lfn C1 = l0 := by simpa using hC1mem
  have hle1 := hle C1
  rw [hC1eq] at hle1
  refine ⟨sfn C1, ?_⟩
  have h1 : C + ⌈(1 : ℚ) - 10 * ((f 0 u).1 - (f 0 l0).1)⌉
      ≤ ((C + ⌈(1 : ℚ) - 10 * ((f 0 u).1 - (f 0 l0).1)⌉).toNat : ℤ) :=
    Int.self_le_toNat _
  have h2 : ((C + ⌈(1 : ℚ) - 10 * ((f 0 u).1 - (f 0 l0).1)⌉).toNat : ℤ) < (C1 : ℤ) := by
    exact_mod_cast hC1gt
  omega

theorem no_infinite_valid_run {n : ℕ} (f : ℕ → Pos n) (pr : ℕ → Fin n × Fin n)
    (h : ValidRun f pr) : False := by
  classical
  set P : Set (Fin n × Fin n) := {p | {t | pr t = p}.Infinite} with hP
  have hbadfin : {t | pr t ∉ P}.Finite := by
    have hsub : {t | pr t ∉ P} ⊆ ⋃ p ∈ {p : Fin n × Fin n | p ∉ P}, {t | pr t = p} := by
      intro t ht
      exact Set.mem_biUnion ht rfl
    refine Set.Finite.subset (Set.Finite.biUnion (Set.toFinite _) ?_) hsub
    intro p hp
    exact Set.not_infinite.mp hp
  obtain ⟨T0, hT0⟩ := hbadfin.bddAbove
  have hgood : ∀ t, T0 + 1 ≤ t → pr t ∈ P := by
    intro t ht
    by_contra hnp
    have hle := hT0 (show t ∈ {t | pr t ∉ P} from hnp)
    omega
  have hPne : P.Nonempty := by
    by_contra hemp
    rw [Set.not_nonempty_iff_eq_empty] at hemp
    have huniv : {t | pr t ∉ P} = Set.univ := by
      ext t
      simp [hemp]
    rw [huniv] at hbadfin
    exact Set.infinite_univ hbadfin
  obtain ⟨p0, hp0⟩ := hPne
  have hfire_lt : ∀ p ∈ P, p.1 < p.2 := by
    intro p hp
    have hpinf : {t | pr t = p}.Infinite := hp
    obtain ⟨t, ht⟩ := hpinf.nonempty
    have ht2 : pr t = p := ht
    have := (h t).1
    rwa [ht2] at this
  set NP : Set (Fin n) := {v | ∃ p ∈ P, v = p.1 ∨ v = p.2} with hNP
  have hNPne : NP.Nonempty := ⟨p0.1, ⟨p0, hp0, Or.inl rfl⟩⟩
  obtain ⟨v0, hv0mem, hv0min⟩ := Set.exists_min_image NP id (Set.toFinite _) hNPne
  have hsnd_ne : ∀ p ∈ P, p.2 ≠ v0 := by
    intro p hp hpv
    have h1 : p.1 ∈ NP := ⟨p, hp, Or.inl rfl⟩
    have h2 := hv0min p.1 h1
    have h3 := hfire_lt p hp
    rw [hpv] at h3
    exact absurd h3 (not_lt.mpr h2)
  obtain ⟨q, hq, hq1⟩ : ∃ q ∈ P, q.1 = v0 := by
    obtain ⟨p, hp, hor⟩ := hv0mem
    rcases hor with h1 | h2
    · exact ⟨p, hp, h1.symm⟩
    · exact absurd h2.symm (hsnd_ne p hp)
  have mono : ∀ t, T0 + 1 ≤ t → mCount pr t v0 ≤ mCount pr (t + 1) v0 := by
    intro t ht
    have hp := hgood t ht
    rw [mCount_succ]
    have h2 : ¬ v0 = (pr t).2 := fun he => hsnd_ne (pr t) hp he.symm
    rw [if_neg h2]
    split_ifs <;> omega
  have mono2 : ∀ a b, T0 + 1 ≤ a → a ≤ b → mCount pr a v0 ≤ mCount pr b v0 := by
    intro a b hTa hab
    induction b, hab using Nat.le_induction with
    | base => exact le_refl _
    | succ b hb ih => exact le_trans ih (mono b (le_trans hTa hb))
  have hqinf : {t | pr t = q}.Infinite := hq
  have grow : ∀ k : ℕ, ∃ t, T0 + 1 ≤ t ∧ mCount pr (T0 + 1) v0 + k ≤ mCount pr t v0 := by
    intro k
    induction k with
    | zero => exact ⟨T0 + 1, le_refl _, by simp⟩
    | succ k ih =>
        obtain ⟨t, hTt, hmt⟩ := ih
        obtain ⟨s, hsmem, hst⟩ := hqinf.exists_gt t
        have hps : pr s = q := hsmem
        have hpsP : pr s ∈ P := by rw [hps]; exact hq
        have hms := mono2 t s hTt (by omega)
        have hstep : mCount pr (s + 1) v0 = mCount pr s v0 + 1 := by
          rw [mCount_succ]
          have e1 : v0 = (pr s).1 := by rw [hps, hq1]
          have e2 : ¬ v0 = (pr s).2 := fun he => hsnd_ne (pr s) hpsP he.symm
          rw [if_pos e1, if_neg e2]
          omega
        refine ⟨s + 1, by omega, ?_⟩
        push_cast
        omega
  have v0climbs : Climbs (mCount pr) v0 := by
    intro C
    obtain ⟨t, _, ht⟩ := grow (C - mCount pr (T0 + 1) v0).toNat
    refine ⟨t, ?_⟩
    have hle := Int.self_le_toNat (C - mCount pr (T0 + 1) v0)
    omega
  obtain ⟨u, humem, humax⟩ :=
    Set.exists_max_image {v : Fin n | Climbs (mCount pr) v} id (Set.toFinite _)
      ⟨v0, v0climbs⟩
  obtain ⟨l, hul, hlcl⟩ := climbs_step h u humem
  exact absurd (humax l hlcl) (not_le.mpr hul)

theorem findClose_some {n : ℕ} {pos : Pos n} {i j : Fin n}
    (h : findClose pos i = some j) : i < j ∧ tooClose pos i j := by
  have hp := List.find?_some h
  simpa using hp

theorem findClose_none {n : ℕ} {pos : Pos n} {i : Fin n}
    (h : findClose pos i = none) : ∀ j, i < j → ¬ tooClose pos i j := by
  intro j hij hcl
  have hp := List.find?_eq_none.mp h j (List.mem_finRange j)
  simp [hij, hcl] at hp

theorem fires_nil_eq {n : ℕ} {p q : Pos n} (h : Fires p [] q) : q = p := by
  cases h
  rfl

theorem fires_cons_inv {n : ℕ} {pos pos' : Pos n} {i j : Fin n}
    {l : List (Fin n × Fin n)} (h : Fires pos ((i, j) :: l) pos') :
    i < j ∧ tooClose pos i j ∧ Fires (nudge pos i j) l pos' := by
  cases h with
  | cons i j hlt hcl htail => exact ⟨hlt, hcl, htail⟩

theorem sweepAux_fires {n : ℕ} : ∀ (l : List (Fin n)) (pos : Pos n),
    Fires pos (sweepAux pos l).2 (sweepAux pos l).1 := by
  intro l
  induction l with
  | nil => intro pos; exact Fires.nil pos
  | cons i rest ih =>
      intro pos
      cases hf : findClose pos i with
      | none => simpa [sweepAux, hf] using ih pos
      | some j =>
          obtain ⟨hij, hcl⟩ := findClose_some hf
          have htail := ih (nudge pos i j)
          simp only [sweepAux, hf]
          exact Fires.cons i j hij hcl htail

theorem sweepAux_nil_no_fires {n : ℕ} : ∀ (l : List (Fin n)) (pos : Pos n),
    (sweepAux pos l).2 = [] →
    (sweepAux pos l).1 = pos ∧ ∀ i ∈ l, findClose pos i = none := by
  intro l
  induction l with
  | nil => intro pos _; exact ⟨rfl, by simp⟩
  | cons i rest ih =>
      intro pos hnil
      cases hf : findClose pos i with
      | some j => simp [sweepAux, hf] at hnil
      | none =>
          have heq : sweepAux pos (i :: rest) = sweepAux pos rest := by
            simp [sweepAux, hf]
          rw [heq] at hnil ⊢
          obtain ⟨h1, h2⟩ := ih pos hnil
          refine ⟨h1, ?_⟩
          intro i2 hi2
          rcases List.mem_cons.mp hi2 with rfl | hmem
          · exact hf
          · exact h2 i2 hmem

theorem runSt_invariant {n : ℕ} (pos0 : Pos n)
    (hcont : ∀ k, (sweep (sweepIter pos0 k)).2 ≠ []) :
    ∀ t cur pend k, runSt pos0 t = ⟨cur, pend, k⟩ →
      pend ≠ [] ∧ Fires cur pend (sweepIter pos0 (k + 1)) := by
  intro t
  induction t with
  | zero =>
      intro cur pend k hst
      have h0 : runSt pos0 0 = ⟨pos0, (sweep pos0).2, 0⟩ := rfl
      rw [h0] at hst
      injection hst with e1 e2 e3
      subst e1
      subst e2
      subst e3
      refine ⟨hcont 0, ?_⟩
      exact sweepAux_fires (List.finRange n) pos0
  | succ t ih =>
      intro cur pend k hst
      rcases hR : runSt pos0 t with ⟨cur0, pend0, k0⟩
      obtain ⟨hne, hfires⟩ := ih cur0 pend0 k0 hR
      cases pend0 with
      | nil => exact absurd rfl hne
      | cons hd rest =>
          obtain ⟨i, j⟩ := hd
          obtain ⟨hij, hcl, htail⟩ := fires_cons_inv hfires
          have hnext : runSt pos0 (t + 1) = nextSt pos0 ⟨cur0, (i, j) :: rest, k0⟩ := by
            rw [show runSt pos0 (t + 1) = nextSt pos0 (runSt pos0 t) from rfl, hR]
          cases rest with
          | nil =>
              have hpq := fires_nil_eq htail
              have hdef : nextSt pos0 (⟨cur0, [(i, j)], k0⟩ : RunSt n)
                  = ⟨nudge cur0 i j, (sweep (sweepIter pos0 (k0 + 1))).2, k0 + 1⟩ := rfl
              rw [hnext, hdef] at hst
              injection hst with e1 e2 e3
              subst e1
              subst e2
              subst e3
              refine ⟨hcont (k0 + 1), ?_⟩
              rw [← hpq]
              exact sweepAux_fires (List.finRange n) (sweepIter pos0 (k0 + 1))
          | cons r rs =>
              have hdef : nextSt pos0 (⟨cur0, (i, j) :: r :: rs, k0⟩ : RunSt n)
                  = ⟨nudge cur0 i j, r :: rs, k0⟩ := rfl
              rw [hnext, hdef] at hst
              injection hst with e1 e2 e3
              subst e1
              subst e2
              subst e3
              exact ⟨List.cons_ne_nil r rs, htail⟩

theorem runSt_validRun {n : ℕ} (pos0 : Pos n) (hn : 0 < n)
    (hcont : ∀ k, (sweep (sweepIter pos0 k)).2 ≠ []) :
    ∃ (f : ℕ → Pos n) (pr : ℕ → Fin n × Fin n), ValidRun f pr := by
  refine ⟨fun t => (runSt pos0 t).cur,
    fun t => match (runSt pos0 t).pend with
      | [] => (⟨0, hn⟩, ⟨0, hn⟩)
      | hd :: _ => hd, ?_⟩
  intro t
  rcases hR : runSt pos0 t with ⟨cur, pend, k⟩
  obtain ⟨hne, hfires⟩ := runSt_invariant pos0 hcont t cur pend k hR
  cases pend with
  | nil => exact absurd rfl hne
  | cons hd rest =>
      obtain ⟨i, j⟩ := hd
      obtain ⟨hij, hcl, htail⟩ := fires_cons_inv hfires
      have hnext : runSt pos0 (t + 1) = nextSt pos0 ⟨cur, (i, j) :: rest, k⟩ := by
        rw [show runSt pos0 (t + 1) = nextSt pos0 (runSt pos0 t) from rfl, hR]
      simp only [hR]
      refine ⟨hij, hcl, ?_⟩
      cases rest with
      | nil =>
          rw [hnext]
          rfl
      | cons r rs =>
          rw [hnext]
          rfl

/-- C7: the pairwise node-repulsion pass of `avoid_overlap` terminates on
every finite graph and initial layout: after finitely many passes of the
`while overlap` loop a pass performs no nudge, and at that point no pair
of distinct nodes is closer than the distance threshold.  (Positions are
modelled with exact rational arithmetic; each nudge moves a pair along
the fixed vector `(0.1, 0.1)`, and were the loop infinite, some node
would be nudged upward beyond every bound while every partner enabling
those nudges must stay within a fixed distance of it, forcing an
impossible infinite ascending chain of node indices.) -/
theorem avoid_overlap_terminates (n : ℕ) (pos : Pos n) :
    ∃ k, (sweep (sweepIter pos k)).2 = [] ∧
      ∀ i j : Fin n, i < j → ¬ tooClose (sweepIter pos k) i j := by
  have hterm : ∃ k, (sweep (sweepIter pos k)).2 = [] := by
    by_contra hc
    push_neg at hc
    rcases Nat.eq_zero_or_pos n with hn | hn
    · subst hn
      exact hc 0 rfl
    · obtain ⟨f, pr, hrun⟩ := runSt_validRun pos hn hc
      exact no_infinite_valid_run f pr hrun
  obtain ⟨k, hk⟩ := hterm
  obtain ⟨hfix, hnone⟩ := sweepAux_nil_no_fires (List.finRange n) (sweepIter pos k) hk
  refine ⟨k, hk, ?_⟩
  intro i j hij
  exact findClose_none (hnone i (List.mem_finRange i)) j hij
